import Mathlib

/-!
Verification development for the lila-deepq job broker.

The fishnet job queue (src/fishnet/api.rs) stores jobs in a MongoDB
collection and manipulates them with `find_one_and_update`, `update_one`
and `delete_one`.  We embed one collection as a `List Job` and the Mongo
primitives as pure functions on it.  Timestamps are UTC instants in
milliseconds, embedded as `Int`; `Duration::minutes(10)` is 600000 ms.
MongoDB document ids (`ObjectId`) are embedded as `Nat`, api keys
(`ApiKey` / `m::Key`) as `String`.

The struct `m::Job` and `m::ApiUser` live in fishnet/model.rs, which is
not part of the source snapshot; their fields are modelled from the spec
(section 3: Job has `game_id`, optional `report_id`, `analysis_type`,
`precedence`, optional `owner`, `date_last_updated`, `is_complete`;
ApiUser has `key`, `name`, optional `user`, `perms`) and agree with every
use site in fishnet/api.rs and fishnet/http.rs.
-/

namespace LilaDeepq

/-- `AnalysisType` — modelled from the spec: UserAnalysis, SystemAnalysis,
Deep (fishnet/model.rs is absent from the snapshot; fishnet/http.rs
matches on exactly these three variants). -/
inductive AnalysisType
  | UserAnalysis
  | SystemAnalysis
  | Deep
deriving DecidableEq

/-- `m::Job` — modelled from the spec (section 3) and the field accesses in
fishnet/api.rs and irwin/api.rs. -/
structure Job where
  _id : Nat
  game_id : String
  report_id : Option Nat
  analysis_type : AnalysisType
  precedence : Int
  owner : Option String
  date_last_updated : Int
  is_complete : Bool
deriving DecidableEq

/-- `m::ApiUser` — modelled from the spec (section 3). -/
structure ApiUser where
  key : String
  name : String
  user : Option String
  perms : List AnalysisType
deriving DecidableEq

/-- `Duration::minutes(10)` from `assign_job`, in milliseconds. -/
def leaseMillis : Int := 600000

/-- The sort document `{precedence: -1, date_last_updated: 1}` of
`assign_job`, as a strict order: `jobBefore a b` holds when `a` sorts
strictly before `b` (higher precedence first, then older timestamp). -/
def jobBefore (a b : Job) : Prop :=
  b.precedence < a.precedence ∨
    (a.precedence = b.precedence ∧ a.date_last_updated < b.date_last_updated)

instance (a b : Job) : Decidable (jobBefore a b) := by
  unfold jobBefore; infer_instance

/-- The filter document of `assign_job` (fishnet/api.rs lines 59-71):
`$or` of `owner: null` and `$and` of `owner = key`,
`date_last_updated < now - 10min`, `is_complete = false`; conjoined (as
all top-level Mongo fields are) with `analysis_type $in perms`. -/
def assign_filter (now : Int) (api_user : ApiUser) (j : Job) : Prop :=
  (j.owner = none ∨
    (j.owner = some api_user.key ∧
      j.date_last_updated < now - leaseMillis ∧
      j.is_complete = false)) ∧
  j.analysis_type ∈ api_user.perms

instance (now : Int) (api_user : ApiUser) : DecidablePred (assign_filter now api_user) := by
  intro j; unfold assign_filter; infer_instance

/-- MongoDB `findOneAndUpdate` sorts the matching documents and picks the
first.  `select_best p l i` returns the index (offset by `i`) and value of
the job minimal for `jobBefore` among those satisfying `p`, preferring the
earlier document on ties. -/
def select_best (p : Job → Prop) [DecidablePred p] : List Job → Nat → Option (Nat × Job)
  | [], _ => none
  | j :: rest, i =>
    match select_best p rest (i + 1) with
    | none => if p j then some (i, j) else none
    | some (k, j') =>
      if p j then
        if jobBefore j' j then some (k, j') else some (i, j)
      else some (k, j')

/-- The Mongo driver's `find_one_and_update` on the jobs collection, with
the sort used by `assign_job`.  The call site builds
`FindOneAndUpdateOptions` with only `.sort(...)`; it does not set
`return_document`, so the server default applies and the value returned is
the document **before** the mutation. -/
def find_one_and_update (p : Job → Prop) [DecidablePred p]
    (u : Job → Job) (jobs : List Job) : Option Job × List Job :=
  match select_best p jobs 0 with
  | none => (none, jobs)
  | some (i, j) => (some j, jobs.set i (u j))

/-- `assign_job` (fishnet/api.rs lines 53-80): one `find_one_and_update`
with the selection filter, the sort `{precedence: -1, date_last_updated: 1}`
and the mutation `$set {owner: key, date_last_updated: now}`.  The source
calls `Utc::now()` twice (cutoff and mutation) within the one operation;
both are embedded as the single instant `now`. -/
def assign_job (now : Int) (api_user : ApiUser) (jobs : List Job) :
    Option Job × List Job :=
  find_one_and_update (assign_filter now api_user)
    (fun j => { j with owner := some api_user.key, date_last_updated := now })
    jobs

/-- Mongo `update_one`: mutate the first document matching the filter. -/
def update_one (p : Job → Prop) [DecidablePred p] (u : Job → Job) :
    List Job → List Job
  | [] => []
  | j :: rest => if p j then u j :: rest else j :: update_one p u rest

/-- `unassign_job` (fishnet/api.rs lines 82-91): `update_one` with filter
`{_id: id, owner: key}` and mutation
`$set {owner: null, date_last_updated: now}`. -/
def unassign_job (now : Int) (api_user : ApiUser) (id : Nat) (jobs : List Job) :
    List Job :=
  update_one (fun j => j._id = id ∧ j.owner = some api_user.key)
    (fun j => { j with owner := none, date_last_updated := now }) jobs

/-- `set_complete` (fishnet/api.rs lines 99-108): `update_one` with filter
`{_id: {$eq: id}}` — no owner condition and no `is_complete` condition —
and mutation `$set {is_complete: true, date_last_updated: now}`. -/
def set_complete (now : Int) (id : Nat) (jobs : List Job) : List Job :=
  update_one (fun j => j._id = id)
    (fun j => { j with is_complete := true, date_last_updated := now }) jobs

/-- Mongo `delete_one`: remove the first document matching the filter. -/
def delete_one (p : Job → Prop) [DecidablePred p] : List Job → List Job
  | [] => []
  | j :: rest => if p j then rest else j :: delete_one p rest

/-- `delete_job` (fishnet/api.rs lines 110-115): `delete_one {_id: id}`. -/
def delete_job (id : Nat) (jobs : List Job) : List Job :=
  delete_one (fun j => j._id = id) jobs

/-! ### Worker HTTP surface (fishnet/http.rs), for the `/analysis/{id}` route -/

/-- `StockfishFlavor` (fishnet/http.rs lines 116-121). -/
inductive StockfishFlavor
  | Nnue
  | Classical
deriving DecidableEq

/-- `StockfishType` (fishnet/http.rs lines 123-126). -/
structure StockfishType where
  flavor : StockfishFlavor
deriving DecidableEq

/-- `RequestInfo` (fishnet/http.rs lines 61-66). -/
structure RequestInfo where
  version : String
  api_key : String
deriving DecidableEq

/-- `PlyScore` (fishnet/http.rs lines 128-132). -/
structure PlyScore where
  cp : Option Int
  mate : Option Int
deriving DecidableEq

/-- `SkippedAnalysis` (fishnet/http.rs lines 134-137). -/
structure SkippedAnalysis where
  skipped : Bool
deriving DecidableEq

/-- `EmptyAnalysis` (fishnet/http.rs lines 139-143). -/
structure EmptyAnalysis where
  depth : Int
  score : PlyScore
deriving DecidableEq

/-- `FullAnalysis` (fishnet/http.rs lines 145-153). -/
structure FullAnalysis where
  pv : String
  depth : Int
  score : PlyScore
  time : Int
  nodes : Int
  nps : Int
deriving DecidableEq

/-- `PlyAnalysis` (fishnet/http.rs lines 155-161), the untagged wire enum. -/
inductive PlyAnalysis
  | Full (a : FullAnalysis)
  | Skipped (a : SkippedAnalysis)
  | Empty (a : EmptyAnalysis)
deriving DecidableEq

/-- `AnalysisReport` (fishnet/http.rs lines 163-168), the body of
`POST /analysis/{id}`. -/
structure AnalysisReport where
  fishnet : RequestInfo
  stockfish : StockfishType
  analysis : List (Option PlyAnalysis)
deriving DecidableEq

/-- `WorkType` (fishnet/http.rs lines 53-59). -/
inductive WorkType
  | Analysis
  | Move
deriving DecidableEq

/-- `Variant` (fishnet/http.rs lines 47-51). -/
inductive Variant
  | Standard
deriving DecidableEq

/-- `Nodes` (fishnet/http.rs lines 84-88). -/
structure Nodes where
  nnue : Nat
  classical : Nat
deriving DecidableEq

/-- `WorkInfo` (fishnet/http.rs lines 90-99). -/
structure WorkInfo where
  _type : WorkType
  id : String
  nodes : Nodes
  depth : Option Nat
  multipv : Option Nat
deriving DecidableEq

/-- The acquire-response payload `Job` of fishnet/http.rs lines 101-114,
renamed `HttpJob` because the queue document is already named `Job`.
`Fen` and `Uci` wire fields are embedded as strings. -/
structure HttpJob where
  work : WorkInfo
  game_id : String
  position : String
  variant : Variant
  moves : List String
  skip_positions : List Nat
deriving DecidableEq

/-- `save_job_analysis` (fishnet/http.rs lines 401-410): the handler body
reads the authorized report, logs it, and returns `Ok(None)`; it performs
no database operation, so the jobs store is passed through unchanged. -/
def save_job_analysis (jobs : List Job) (_job_id : Nat)
    (_analysis : AnalysisReport) : List Job × Option HttpJob :=
  (jobs, none)

/-- `json_object_or_no_content` (http.rs lines 49-59): `None` becomes a
`204 No Content` reply, `Some` a `200` JSON reply. -/
def json_object_or_no_content {α : Type} : Option α → Nat
  | none => 204
  | some _ => 200

/-- The `/analysis/{id}` route (fishnet/http.rs lines 478-484):
`save_job_analysis` chained with `json_object_or_no_content`. -/
def analysis_endpoint (jobs : List Job) (job_id : Nat)
    (report : AnalysisReport) : List Job × Nat :=
  let r := save_job_analysis jobs job_id report
  (r.1, json_object_or_no_content r.2)

/-! ### deepq model (reports, scores) used by irwin/api.rs

The deepq model/api version these symbols come from is absent from the
snapshot (src/deepq.rs is an older revision without `sent_to_irwin`);
`Report`, `Score`, `find_report`, `FishnetJob::find_by_report` and
`atomically_update_sent_to_irwin` are modelled from the spec (sections 3,
4.4 and 4.5) and from their use sites in irwin/api.rs. -/

/-- `ReportOrigin` (deepq.rs lines 46-53). -/
inductive ReportOrigin
  | Moderator
  | Random
  | Leaderboard
  | Tournament
deriving DecidableEq

/-- `ReportType` (deepq.rs lines 61-67). -/
inductive ReportType
  | Irwin
  | CR
  | PGNSPY
deriving DecidableEq

/-- `precedence_for_origin` (deepq.rs lines 179-186). -/
def precedence_for_origin : ReportOrigin → Int
  | ReportOrigin.Moderator => 1000000
  | ReportOrigin.Tournament => 100
  | ReportOrigin.Leaderboard => 100
  | ReportOrigin.Random => 10

/-- `Score` — modelled from the spec: `Cp(i32) | Mate(i32)` (section 3). -/
inductive Score
  | Cp (v : Int)
  | Mate (v : Int)
deriving DecidableEq

/-- `Report` — modelled from the spec (section 3): key, suspect, origin,
type, game ids, request instant, optional completion instant and the
`sent_to_irwin` latch. -/
structure Report where
  _id : Nat
  user_id : String
  origin : ReportOrigin
  report_type : ReportType
  game_ids : List String
  date_requested : Int
  date_completed : Option Int
  sent_to_irwin : Bool
deriving DecidableEq

/-- Mongo `find_one_and_update` on the reports collection (no sort:
mutate and return the first match).  Modelled from the spec (section 4.1):
the Store primitive returns the document after mutation. -/
def foau_report (p : Report → Prop) [DecidablePred p] (u : Report → Report) :
    List Report → Option Report × List Report
  | [] => (none, [])
  | r :: rest =>
    if p r then (some (u r), u r :: rest)
    else ((foau_report p u rest).1, r :: (foau_report p u rest).2)

/-- The `$set` document of the latch mutation:
`{sent_to_irwin: true, date_completed: now}`. -/
def latch_report (now : Int) (r : Report) : Report :=
  { r with sent_to_irwin := true, date_completed := some now }

/-- `atomically_update_sent_to_irwin` — modelled from the spec (section
4.5 step 5): `find_one_and_update(reports, {_id: rid, sent_to_irwin:
false}, {$set: {sent_to_irwin: true, date_completed: now}})`. -/
def atomically_update_sent_to_irwin (now : Int) (rid : Nat)
    (reports : List Report) : Option Report × List Report :=
  foau_report (fun r => r._id = rid ∧ r.sent_to_irwin = false)
    (latch_report now) reports

/-! ### IEEE double model for the completeness percentage

`report_complete_percentage` computes on `f64`.  The values reachable
there are small non-negative integer counts (exactly representable) and
one division.  `F64` embeds exactly these IEEE semantics: finite values
are kept exact as rationals, `0.0/0.0` is NaN, `x/0.0` for `x ≠ 0` is
infinity, and every comparison involving NaN is false.  Signs of
infinities are irrelevant for the reachable (non-negative) inputs. -/

inductive F64
  | num (q : Rat)
  | inf
  | nan
deriving DecidableEq

/-- IEEE `f64` division on the values reachable in the aggregator. -/
def F64.div : F64 → F64 → F64
  | F64.num a, F64.num b =>
    if b = 0 then (if a = 0 then F64.nan else F64.inf) else F64.num (a / b)
  | F64.nan, _ => F64.nan
  | _, F64.nan => F64.nan
  | F64.inf, F64.inf => F64.nan
  | F64.inf, F64.num _ => F64.inf
  | F64.num _, F64.inf => F64.num 0

/-- IEEE `>=`: false whenever an operand is NaN. -/
def F64.ge : F64 → F64 → Bool
  | F64.nan, _ => false
  | _, F64.nan => false
  | F64.inf, _ => true
  | F64.num _, F64.inf => false
  | F64.num a, F64.num b => decide (b ≤ a)

/-- `FishnetJob::find_by_report` — modelled from the spec (section 4.5
step 3): the jobs whose `report_id` is the given report. -/
def find_by_report (jobs : List Job) (rid : Nat) : List Job :=
  jobs.filter (fun j => j.report_id == some rid)

/-- The counting loop of `report_complete_percentage` (irwin/api.rs lines
406-427): two `f64` counters incremented by 1 per job. -/
def count_jobs : List Job → Rat × Rat
  | [] => (0, 0)
  | j :: rest =>
    let counts := count_jobs rest
    if j.is_complete then (counts.1 + 1, counts.2) else (counts.1, counts.2 + 1)

/-- `report_complete_percentage` (irwin/api.rs lines 403-429):
`complete / (complete + incomplete)` over the report's jobs. -/
def report_complete_percentage (jobs : List Job) (report : Report) : F64 :=
  let counts := count_jobs (find_by_report jobs report._id)
  F64.div (F64.num counts.1) (F64.num (counts.1 + counts.2))

/-- `update_report_completeness` (irwin/api.rs lines 431-460): when the
percentage passes `>= 1f64`, attempt the atomic latch; otherwise log only.
Building and submitting the downstream payload after a successful latch
only reads the store, so the reports collection it returns is the latched
one in either branch of the inner `if let`. -/
def update_report_completeness (now : Int) (jobs : List Job)
    (report : Report) (reports : List Report) : List Report :=
  if F64.ge (report_complete_percentage jobs report) (F64.num 1) then
    (atomically_update_sent_to_irwin now report._id reports).2
  else reports

/-- `handle_job_completed` (irwin/api.rs lines 355-401): resolve the job,
then its report, then recompute completeness; every failing lookup only
logs. -/
def handle_job_completed (now : Int) (jobs : List Job)
    (reports : List Report) (job_id : Nat) : List Report :=
  match jobs.find? (fun j => j._id == job_id) with
  | none => reports
  | some job =>
    match job.report_id with
    | none => reports
    | some rid =>
      match reports.find? (fun r => r._id == rid) with
      | none => reports
      | some report => update_report_completeness now jobs report reports

/-- One `FishnetMsg::JobCompleted` delivery as the aggregator loop sees
it: an instant, the jobs collection at that instant (other tasks may have
changed it between events), and the completed job's id. -/
structure AggEvent where
  now : Int
  jobs : List Job
  job_id : Nat

/-- The aggregator's handling of one `JobCompleted` event
(irwin/api.rs lines 475-476). -/
def agg_step (reports : List Report) (e : AggEvent) : List Report :=
  handle_job_completed e.now e.jobs reports e.job_id

/-- The `sent_to_irwin` flag of report `rid` as stored (false if the
report does not exist). -/
def sent_flag (reports : List Report) (rid : Nat) : Bool :=
  match reports.find? (fun r => r._id == rid) with
  | some r => r.sent_to_irwin
  | none => false

/-- How many events of the trace flip report `rid`'s `sent_to_irwin`
from false to true. -/
def count_flips (rid : Nat) : List Report → List AggEvent → Nat
  | _, [] => 0
  | reports, e :: es =>
    (if sent_flag reports rid = false ∧ sent_flag (agg_step reports e) rid = true
      then 1 else 0)
      + count_flips rid (agg_step reports e) es

/-! ### Ingest (irwin/api.rs `add_to_queue`)

SAN parsing and move validation live in the external shakmaty library
(explicitly out of scope per the spec, section 1); `ChessLib` abstracts
exactly the operations `uci_from_san` calls: `San::to_move` (which fails
on an unparseable or illegal SAN), `Position::play` (which fails on an
illegal move) and `Uci::from_move`. -/

/-- The two error paths of `uci_from_san` (error.rs: `SanError` from the
`?` on `to_move`, `PositionError` from the `map_err` on `play`). -/
inductive IngestError
  | SanError
  | PositionError
deriving DecidableEq

/-- The shakmaty operations used by `uci_from_san`. -/
structure ChessLib (San Mv Pos Uci : Type) where
  default_pos : Pos
  san_to_move : San → Pos → Option Mv
  play : Pos → Mv → Option Pos
  uci_of_move : Mv → Uci

/-- The loop of `uci_from_san` (irwin/api.rs lines 68-78) from a given
position: translate each SAN to a move, emit its UCI, advance the
position; fail the whole translation on the first illegal ply. -/
def uci_from_san_go {San Mv Pos Uci : Type} (L : ChessLib San Mv Pos Uci) :
    Pos → List San → Except IngestError (List Uci)
  | _, [] => Except.ok []
  | pos, san :: rest =>
    match L.san_to_move san pos with
    | none => Except.error IngestError.SanError
    | some m =>
      match L.play pos m with
      | none => Except.error IngestError.PositionError
      | some next => (uci_from_san_go L next rest).map (fun us => L.uci_of_move m :: us)

/-- `uci_from_san` (irwin/api.rs lines 68-78): replay from
`Chess::default()`, the standard starting position. -/
def uci_from_san {San Mv Pos Uci : Type} (L : ChessLib San Mv Pos Uci)
    (pgn : List San) : Except IngestError (List Uci) :=
  uci_from_san_go L L.default_pos pgn

/-- `User` (irwin/api.rs lines 45-51). -/
structure IrwinUser where
  id : String
  titled : Bool
  engine : Bool
  games : Int

/-- `RequestGame` (irwin/api.rs lines 55-66). -/
structure RequestGame (San : Type) where
  id : String
  white : String
  black : String
  emts : Option (List Int)
  pgn : List San
  analysis : Option (List Score)

/-- `Request` (irwin/api.rs lines 96-102). -/
structure Request (San : Type) where
  t : String
  origin : ReportOrigin
  user : IrwinUser
  games : List (RequestGame San)

/-- `CreateGame` (deepq api) as built by the newer `TryFrom<&RequestGame>`
(irwin/api.rs lines 80-93): pgn already translated to UCI. -/
structure CreateGame (Uci : Type) where
  game_id : String
  emts : List Int
  pgn : List Uci
  black : Option String
  white : Option String

/-- `TryFrom<&RequestGame> for CreateGame` (irwin/api.rs lines 80-93):
fails exactly when `uci_from_san` fails. -/
def create_game_try_from {San Mv Pos Uci : Type} (L : ChessLib San Mv Pos Uci)
    (g : RequestGame San) : Except IngestError (CreateGame Uci) :=
  (uci_from_san L g.pgn).map (fun pgn =>
    { game_id := g.id, emts := g.emts.getD [], pgn := pgn,
      black := some g.black, white := some g.white })

/-- `CreateJob` (fishnet/api.rs; the newer revision adds `report_id`,
per its construction in irwin/api.rs lines 145-153). -/
structure CreateJob where
  game_id : String
  report_id : Option Nat
  analysis_type : AnalysisType
  precedence : Int

/-- `CreateReport` (deepq.rs lines 158-163). -/
structure CreateReport where
  user_id : String
  origin : ReportOrigin
  report_type : ReportType
  games : List String

/-- `From<Request> for CreateReport` (irwin/api.rs lines 104-113). -/
def create_report_of_request {San : Type} (req : Request San) : CreateReport :=
  { user_id := req.user.id, origin := req.origin,
    report_type := ReportType.Irwin,
    games := req.games.map (fun g => g.id) }

/-- The three collections `add_to_queue` writes, plus a fresh-`ObjectId`
counter. -/
structure IngestState (Uci : Type) where
  games : List (CreateGame Uci)
  reports : List Report
  jobs : List Job
  next_id : Nat

/-- `insert_one_game` (deepq.rs lines 253-270): an upsert keyed on the
game id. -/
def upsert_game {Uci : Type} (games : List (CreateGame Uci))
    (g : CreateGame Uci) : List (CreateGame Uci) :=
  if games.any (fun g2 => g2.game_id == g.game_id) then
    games.map (fun g2 => if g2.game_id == g.game_id then g else g2)
  else games ++ [g]

/-- `insert_many_games` (deepq.rs lines 272-278): upsert each game. -/
def insert_many_games {Uci : Type} (games : List (CreateGame Uci))
    (incoming : List (CreateGame Uci)) : List (CreateGame Uci) :=
  incoming.foldl upsert_game games

/-- `From<CreateReport> for Report` with a fresh id; `sent_to_irwin`
starts false and `date_completed` empty (spec section 4.4 steps 3). -/
def report_of_create (now : Int) (rid : Nat) (cr : CreateReport) : Report :=
  { _id := rid, user_id := cr.user_id, origin := cr.origin,
    report_type := cr.report_type, game_ids := cr.games,
    date_requested := now, date_completed := none, sent_to_irwin := false }

/-- `insert_one_report` (deepq.rs lines 280-284): insert, returning the
new id. -/
def insert_one_report {Uci : Type} (now : Int) (st : IngestState Uci)
    (cr : CreateReport) : Nat × IngestState Uci :=
  (st.next_id,
    { st with reports := st.reports ++ [report_of_create now st.next_id cr],
              next_id := st.next_id + 1 })

/-- `From<CreateJob> for Job`: fresh id, `owner = None`,
`date_last_updated = now`, `is_complete = false` (fishnet.rs lines 82-93
and spec section 4.4 step 4). -/
def job_of_create (now : Int) (id : Nat) (c : CreateJob) : Job :=
  { _id := id, game_id := c.game_id, report_id := c.report_id,
    analysis_type := c.analysis_type, precedence := c.precedence,
    owner := none, date_last_updated := now, is_complete := false }

/-- `insert_many_jobs` (fishnet/api.rs lines 42-51): insert one `Job` per
`CreateJob`. -/
def insert_jobs {Uci : Type} (now : Int) (st : IngestState Uci) :
    List CreateJob → IngestState Uci
  | [] => st
  | c :: cs =>
    insert_jobs now
      { st with jobs := st.jobs ++ [job_of_create now st.next_id c],
                next_id := st.next_id + 1 } cs

/-- `collect::<Result<Vec<_>>>()`: map, stopping at the first error. -/
def mapExcept {α β ε : Type} (f : α → Except ε β) : List α → Except ε (List β)
  | [] => Except.ok []
  | a :: rest =>
    match f a with
    | Except.error e => Except.error e
    | Except.ok b => (mapExcept f rest).map (fun bs => b :: bs)

/-- `add_to_queue` (irwin/api.rs lines 130-157): translate every game
first (`?` propagates the first illegal-move error before any insert),
then upsert the games, insert the report, and insert one Deep job per
game carrying the fresh report id and the origin's precedence. -/
def add_to_queue {San Mv Pos Uci : Type} (L : ChessLib San Mv Pos Uci)
    (now : Int) (st : IngestState Uci) (req : Request San) :
    IngestState Uci × Option IngestError :=
  match mapExcept (create_game_try_from L) req.games with
  | Except.error e => (st, some e)
  | Except.ok games_with_uci =>
    let st1 := { st with games := insert_many_games st.games games_with_uci }
    let rs := insert_one_report now st1 (create_report_of_request req)
    let fishnet_jobs := req.games.map (fun g =>
      CreateJob.mk g.id (some rs.1) AnalysisType.Deep
        (precedence_for_origin req.origin))
    (insert_jobs now rs.2 fishnet_jobs, none)

/-! ### Downstream score payload (irwin/api.rs `EngineEval`) -/

/-- `EngineEval` (irwin/api.rs lines 172-177): the downstream payload
declares `cp` and `mate` as `Option<u32>`; `u32` values are embedded as
naturals below `2^32`. -/
structure EngineEval where
  cp : Option Nat
  mate : Option Nat
deriving DecidableEq

/-- Rust `v as u32` on an `i32`: two's-complement reinterpretation,
i.e. the value modulo `2^32`. -/
def i32_as_u32 (v : Int) : Nat := (v % 4294967296).toNat

/-- `impl From<Score> for EngineEval` (irwin/api.rs lines 179-192):
`Score::Cp(cp) => cp as u32`, `Score::Mate(m) => m as u32`. -/
def engine_eval_of_score : Score → EngineEval
  | Score.Cp cp => { cp := some (i32_as_u32 cp), mate := none }
  | Score.Mate m => { cp := none, mate := some (i32_as_u32 m) }

/-! ### Concrete inputs for counterexamples and witnesses -/

def keyK : String := "k"
def keyOther : String := "other"
def gid1 : String := "g1"
def gid2 : String := "g2"
def gid3 : String := "g3"

/-- A worker holding key `keyK` with the Deep capability. -/
def worker : ApiUser :=
  { key := keyK, name := keyK, user := none, perms := [AnalysisType.Deep] }

/-- A free, incomplete Deep job. -/
def jobFree : Job :=
  { _id := 1, game_id := gid1, report_id := none,
    analysis_type := AnalysisType.Deep, precedence := 10, owner := none,
    date_last_updated := 0, is_complete := false }

/-- An incomplete job owned by a key other than `worker`'s. -/
def jobOther : Job :=
  { jobFree with _id := 7, owner := some keyOther, date_last_updated := 3 }

/-- Precedence-10 job, oldest. -/
def jobP10 : Job := jobFree

/-- Precedence-100 job inserted first (older timestamp). -/
def jobA : Job :=
  { jobFree with
      _id := 2, game_id := gid2, precedence := 100,
      date_last_updated := 1 }

/-- Precedence-100 job inserted second (newer timestamp). -/
def jobB : Job :=
  { jobFree with
      _id := 3, game_id := gid3, precedence := 100,
      date_last_updated := 2 }

/-- An analysis report body with three entries. -/
def analysisReportW : AnalysisReport :=
  { fishnet := { version := keyK, api_key := keyK },
    stockfish := { flavor := StockfishFlavor.Nnue },
    analysis := [none, none, none] }

/-- A report no job refers to. -/
def reportW : Report :=
  { _id := 5, user_id := keyK, origin := ReportOrigin.Moderator,
    report_type := ReportType.Irwin, game_ids := [],
    date_requested := 0, date_completed := none, sent_to_irwin := false }

/-- A chess stand-in whose every SAN is unparseable. -/
def chessLibW : ChessLib Unit Unit Unit Unit :=
  { default_pos := (), san_to_move := fun _ _ => none,
    play := fun _ _ => some (), uci_of_move := fun _ => () }

/-- A one-ply game under `chessLibW` (its single SAN is illegal). -/
def requestGameW : RequestGame Unit :=
  { id := gid1, white := keyK, black := keyOther, emts := none,
    pgn := [()], analysis := none }

/-- An ingest request containing `requestGameW`. -/
def requestW : Request Unit :=
  { t := keyK, origin := ReportOrigin.Moderator,
    user := { id := keyK, titled := false, engine := false, games := 1 },
    games := [requestGameW] }

/-- An empty ingest state. -/
def ingestStateW : IngestState Unit :=
  { games := [], reports := [], jobs := [], next_id := 0 }

/-- A job owned by `worker` and already complete. -/
def jobDone : Job := { jobFree with owner := some keyK, is_complete := true }

/-- An incomplete job owned by `worker`, id 3. -/
def jobIncomplete3 : Job := { jobFree with _id := 3, owner := some keyK }

/-! ## Helper lemmas -/

theorem jobBefore_irrefl (a : Job) : ¬ jobBefore a a := by
  unfold jobBefore; omega

theorem jobBefore_asymm {a b : Job} (h : jobBefore a b) : ¬ jobBefore b a := by
  unfold jobBefore at h ⊢; omega

theorem not_jobBefore_trans {a b c : Job} (h1 : ¬ jobBefore a b)
    (h2 : ¬ jobBefore b c) : ¬ jobBefore a c := by
  unfold jobBefore at h1 h2 ⊢; omega

theorem select_best_none (p : Job → Prop) [DecidablePred p] :
    ∀ (l : List Job) (i : Nat), select_best p l i = none → ∀ c ∈ l, ¬ p c := by
  intro l
  induction l with
  | nil => simp
  | cons j rest ih =>
    intro i h c hc
    rw [select_best] at h
    cases hsb : select_best p rest (i + 1) with
    | none =>
      rw [hsb] at h
      by_cases hp : p j
      · simp [hp] at h
      · rcases List.mem_cons.mp hc with rfl | hmem
        · exact hp
        · exact ih (i + 1) hsb c hmem
    | some v =>
      obtain ⟨k, j2⟩ := v
      rw [hsb] at h
      by_cases hp : p j
      · simp only [hp, if_true] at h
        split at h <;> simp at h
      · simp [hp] at h

theorem select_best_mem (p : Job → Prop) [DecidablePred p] :
    ∀ (l : List Job) (i k : Nat) (j : Job), select_best p l i = some (k, j) →
      i ≤ k ∧ l[k - i]? = some j ∧ p j := by
  intro l
  induction l with
  | nil => intro i k j h; rw [select_best] at h; cases h
  | cons j0 rest ih =>
    intro i k j h
    rw [select_best] at h
    cases hsb : select_best p rest (i + 1) with
    | none =>
      rw [hsb] at h
      by_cases hp : p j0
      · simp only [hp, if_true, Option.some.injEq, Prod.mk.injEq] at h
        obtain ⟨rfl, rfl⟩ := h
        simp [hp]
      · simp [hp] at h
    | some v =>
      obtain ⟨k2, j2⟩ := v
      rw [hsb] at h
      obtain ⟨hle, hget, hp2⟩ := ih (i + 1) k2 j2 hsb
      by_cases hp : p j0
      · simp only [hp, if_true] at h
        split at h
        · simp only [Option.some.injEq, Prod.mk.injEq] at h
          obtain ⟨rfl, rfl⟩ := h
          refine ⟨by omega, ?_, hp2⟩
          have hki : k2 - i = (k2 - (i + 1)) + 1 := by omega
          rw [hki, List.getElem?_cons_succ]
          exact hget
        · simp only [Option.some.injEq, Prod.mk.injEq] at h
          obtain ⟨rfl, rfl⟩ := h
          simp [hp]
      · simp only [hp, if_false, Option.some.injEq, Prod.mk.injEq] at h
        obtain ⟨rfl, rfl⟩ := h
        refine ⟨by omega, ?_, hp2⟩
        have hki : k2 - i = (k2 - (i + 1)) + 1 := by omega
        rw [hki, List.getElem?_cons_succ]
        exact hget

theorem select_best_min (p : Job → Prop) [DecidablePred p] :
    ∀ (l : List Job) (i k : Nat) (j : Job), select_best p l i = some (k, j) →
      ∀ c ∈ l, p c → ¬ jobBefore c j := by
  intro l
  induction l with
  | nil => intro i k j h; rw [select_best] at h; cases h
  | cons j0 rest ih =>
    intro i k j h c hc hpc
    rw [select_best] at h
    cases hsb : select_best p rest (i + 1) with
    | none =>
      rw [hsb] at h
      by_cases hp : p j0
      · simp only [hp, if_true, Option.some.injEq, Prod.mk.injEq] at h
        obtain ⟨rfl, rfl⟩ := h
        rcases List.mem_cons.mp hc with rfl | hmem
        · exact jobBefore_irrefl c
        · exact absurd hpc (select_best_none p rest (i + 1) hsb c hmem)
      · simp [hp] at h
    | some v =>
      obtain ⟨k2, j2⟩ := v
      rw [hsb] at h
      by_cases hp : p j0
      · simp only [hp, if_true] at h
        by_cases hb : jobBefore j2 j0
        · rw [if_pos hb] at h
          simp only [Option.some.injEq, Prod.mk.injEq] at h
          obtain ⟨rfl, rfl⟩ := h
          rcases List.mem_cons.mp hc with rfl | hmem
          · exact jobBefore_asymm hb
          · exact ih (i + 1) k2 j2 hsb c hmem hpc
        · rw [if_neg hb] at h
          simp only [Option.some.injEq, Prod.mk.injEq] at h
          obtain ⟨rfl, rfl⟩ := h
          rcases List.mem_cons.mp hc with rfl | hmem
          · exact jobBefore_irrefl c
          · exact not_jobBefore_trans (ih (i + 1) k2 j2 hsb c hmem hpc) hb
      · simp only [hp, if_false, Option.some.injEq, Prod.mk.injEq] at h
        obtain ⟨rfl, rfl⟩ := h
        rcases List.mem_cons.mp hc with rfl | hmem
        · exact absurd hpc hp
        · exact ih (i + 1) k2 j2 hsb c hmem hpc

theorem delete_one_subset (p : Job → Prop) [DecidablePred p] :
    ∀ (l : List Job), ∀ j ∈ delete_one p l, j ∈ l := by
  intro l
  induction l with
  | nil => simp [delete_one]
  | cons j0 rest ih =>
    intro j hj
    rw [delete_one] at hj
    by_cases hp : p j0
    · rw [if_pos hp] at hj
      exact List.mem_cons_of_mem j0 hj
    · rw [if_neg hp] at hj
      rcases List.mem_cons.mp hj with rfl | hmem
      · exact List.mem_cons_self j rest
      · exact List.mem_cons_of_mem j0 (ih j hmem)

/-! ## Claims about the job queue -/

/-- Claim C1: every call `assign_job(api_user)` either changes nothing, or
marks `api_user` owner of exactly one job, a job that satisfied the
selection predicate — owner empty, or owned by `api_user` with the job
incomplete and its lease (10 minutes) expired — and whose analysis type is
among `api_user`'s permissions. -/
theorem assign_job_marks_at_most_one (now : Int) (api_user : ApiUser)
    (jobs : List Job) :
    assign_job now api_user jobs = (none, jobs) ∨
    ∃ i j, jobs[i]? = some j ∧
      (j.owner = none ∨
        (j.owner = some api_user.key ∧
          j.date_last_updated < now - leaseMillis ∧ j.is_complete = false)) ∧
      j.analysis_type ∈ api_user.perms ∧
      assign_job now api_user jobs =
        (some j,
          jobs.set i { j with owner := some api_user.key, date_last_updated := now }) := by
  unfold assign_job find_one_and_update
  cases hsb : select_best (assign_filter now api_user) jobs 0 with
  | none => exact Or.inl rfl
  | some v =>
    obtain ⟨i, j⟩ := v
    obtain ⟨-, hget, hp⟩ := select_best_mem _ jobs 0 i j hsb
    refine Or.inr ⟨i, j, by simpa using hget, hp.1, hp.2, rfl⟩

/-- Claim C2 (code-bug evidence): `assign_job` does select and mutate the
free job, but the document it returns is the one from **before** the
mutation — its owner is still `none` and its timestamp the stale one —
because the `find_one_and_update` call never sets
`ReturnDocument::After`. -/
theorem assign_job_returns_stale_document :
    (assign_job 1000000 worker [jobFree]).1 = some jobFree ∧
    jobFree.owner = none ∧
    jobFree.date_last_updated = 0 ∧
    (assign_job 1000000 worker [jobFree]).2 =
      [{ jobFree with owner := some keyK, date_last_updated := 1000000 }] := by
  decide

/-- Counterexample to claim C3: `set_complete` mutates a job whose owner
(`keyOther`) differs from any caller's key; the job is not left
unchanged. -/
theorem set_complete_ignores_owner :
    jobOther.owner = some keyOther ∧ keyOther ≠ keyK ∧
    jobOther.is_complete = false ∧
    set_complete 9 7 [jobOther] =
      [{ jobOther with is_complete := true, date_last_updated := 9 }] ∧
    set_complete 9 7 [jobOther] ≠ [jobOther] := by
  decide

/-- Claim C3 (amended): `set_complete` takes no api_user and checks
neither ownership nor prior completion: it sets `is_complete := true` and
`date_last_updated := now` on the first job whose `_id` matches,
whatever its owner and completion state, and leaves every other job
unchanged. -/
theorem set_complete_unconditional (now : Int) (id : Nat) :
    ∀ (jobs : List Job) (i : Nat) (ji : Job),
      jobs[i]? = some ji → ji._id = id →
      (∀ k, k < i → ∀ jk, jobs[k]? = some jk → jk._id ≠ id) →
      set_complete now id jobs =
        jobs.set i { ji with is_complete := true, date_last_updated := now } := by
  intro jobs
  induction jobs with
  | nil => intro i ji h; simp at h
  | cons j0 rest ih =>
    intro i ji hget hid hfirst
    cases i with
    | zero =>
      rw [List.getElem?_cons_zero, Option.some.injEq] at hget
      subst hget
      unfold set_complete update_one
      rw [if_pos hid, List.set_cons_zero]
    | succ n =>
      have hj0 : j0._id ≠ id := hfirst 0 (Nat.succ_pos n) j0 (by simp)
      have htail := ih n ji (by simpa using hget) hid
        (fun k hk jk hjk => hfirst (k + 1) (by omega) jk (by simpa using hjk))
      unfold set_complete at htail ⊢
      unfold update_one
      rw [if_neg hj0, List.set_cons_succ, htail]

/-- Witness for the amended claim C3 at a concrete input. -/
theorem set_complete_unconditional_witness :
    set_complete 9 7 [jobOther] =
      [{ jobOther with is_complete := true, date_last_updated := 9 }] := by
  have h := set_complete_unconditional 9 7 [jobOther] 0 jobOther (by decide)
    (by decide) (by intro k hk jk; omega)
  simpa using h

/-- Counterexample to claim C4: starting from a single free incomplete
job, the queue operation `set_complete` produces a job with
`is_complete = true` and `owner = none`, violating the invariant. -/
theorem completed_job_without_owner :
    jobFree.owner = none ∧ jobFree.is_complete = false ∧
    set_complete 5 1 [jobFree] =
      [{ jobFree with is_complete := true, date_last_updated := 5 }] ∧
    ({ jobFree with is_complete := true, date_last_updated := 5 } : Job).is_complete = true ∧
    ({ jobFree with is_complete := true, date_last_updated := 5 } : Job).owner = none := by
  decide

/-- Claim C4 (amended): the invariant `is_complete ⇒ owner ≠ none` is
preserved by `assign_job` and `delete_job`; it is not preserved by
`set_complete`, which completes a job regardless of ownership (see the
counterexample). -/
theorem assign_delete_preserve_invariant (now : Int) (api_user : ApiUser)
    (id : Nat) (jobs : List Job)
    (hinv : ∀ j ∈ jobs, j.is_complete = true → j.owner ≠ none) :
    (∀ j ∈ (assign_job now api_user jobs).2, j.is_complete = true → j.owner ≠ none) ∧
    (∀ j ∈ delete_job id jobs, j.is_complete = true → j.owner ≠ none) := by
  constructor
  · intro j hj hc
    unfold assign_job find_one_and_update at hj
    cases hsb : select_best (assign_filter now api_user) jobs 0 with
    | none =>
      rw [hsb] at hj
      exact hinv j hj hc
    | some v =>
      obtain ⟨i, j0⟩ := v
      rw [hsb] at hj
      rcases List.mem_or_eq_of_mem_set hj with hmem | rfl
      · exact hinv j hmem hc
      · simp
  · intro j hj hc
    exact hinv j (delete_one_subset _ jobs j hj) hc

/-- Witness for the amended claim C4 at a concrete input. -/
theorem assign_delete_preserve_invariant_witness :
    (assign_job 1000000 worker [jobDone]).2 = [jobDone] ∧ jobDone.owner ≠ none := by
  have h := assign_delete_preserve_invariant 1000000 worker 1 [jobDone] (by decide)
  exact ⟨by decide, h.1 jobDone (by decide) (by decide)⟩

/-- Claim C7: among the jobs passing the selection predicate, `assign_job`
hands out one with the greatest precedence, breaking precedence ties by
the oldest `date_last_updated`. -/
theorem assign_job_picks_highest_precedence (now : Int) (api_user : ApiUser)
    (jobs : List Job) (j : Job)
    (h : (assign_job now api_user jobs).1 = some j)
    (c : Job) (hc : c ∈ jobs)
    (hpred : (c.owner = none ∨
        (c.owner = some api_user.key ∧
          c.date_last_updated < now - leaseMillis ∧ c.is_complete = false)) ∧
      c.analysis_type ∈ api_user.perms) :
    c.precedence ≤ j.precedence ∧
      (c.precedence = j.precedence →
        j.date_last_updated ≤ c.date_last_updated) := by
  unfold assign_job find_one_and_update at h
  cases hsb : select_best (assign_filter now api_user) jobs 0 with
  | none => rw [hsb] at h; cases h
  | some v =>
    obtain ⟨i, j0⟩ := v
    rw [hsb] at h
    rw [Option.some.injEq] at h
    subst h
    have hmin := select_best_min _ jobs 0 i j0 hsb c hc hpred
    unfold jobBefore at hmin
    constructor
    · omega
    · intro he; omega

/-- Witness for claim C7: with precedences [10, 100, 100] (the two 100s
inserted as `jobA` then `jobB`), `assign_job` picks `jobA` and the
precedence-10 job loses the comparison. -/
theorem assign_job_picks_highest_precedence_witness :
    jobP10.precedence ≤ jobA.precedence ∧
      (jobP10.precedence = jobA.precedence →
        jobA.date_last_updated ≤ jobP10.date_last_updated) := by
  exact assign_job_picks_highest_precedence 1000000 worker [jobP10, jobA, jobB]
    jobA (by decide) jobP10 (by decide) (by decide)

/-! ## Claims about the worker HTTP surface -/

/-- Counterexample to claim C5: an authenticated POST to `/analysis/3`
with a three-entry analysis leaves the incomplete job 3 untouched
(`is_complete` stays false, no completion is invoked and nothing is
validated) while still answering 204. -/
theorem analysis_endpoint_completes_nothing :
    analysis_endpoint [jobIncomplete3] 3 analysisReportW = ([jobIncomplete3], 204) ∧
    jobIncomplete3.is_complete = false := by
  exact ⟨rfl, rfl⟩

/-- Claim C5 (amended): for every authenticated POST to `/analysis/{id}`
the handler ignores the payload — it validates nothing, never invokes the
queue's complete operation (the jobs store is returned unchanged) — and
responds 204. -/
theorem analysis_endpoint_stub (jobs : List Job) (job_id : Nat)
    (report : AnalysisReport) :
    analysis_endpoint jobs job_id report = (jobs, 204) := rfl

/-! ## Claims about the aggregator -/

theorem sent_flag_cons (r : Report) (rest : List Report) (rid : Nat) :
    sent_flag (r :: rest) rid =
      if r._id = rid then r.sent_to_irwin else sent_flag rest rid := by
  unfold sent_flag
  by_cases hr : r._id = rid
  · rw [if_pos hr, List.find?_cons_of_pos]
    simp [hr]
  · rw [if_neg hr, List.find?_cons_of_neg]
    simp [hr]

theorem latch_report_id (now : Int) (r : Report) :
    (latch_report now r)._id = r._id := rfl

theorem latch_report_sent (now : Int) (r : Report) :
    (latch_report now r).sent_to_irwin = true := rfl

theorem sent_flag_mono_atomically (now : Int) (rid2 rid : Nat) :
    ∀ (reports : List Report), sent_flag reports rid = true →
      sent_flag (atomically_update_sent_to_irwin now rid2 reports).2 rid = true := by
  intro reports
  induction reports with
  | nil => intro h; exact h
  | cons r rest ih =>
    intro h
    rw [sent_flag_cons] at h
    unfold atomically_update_sent_to_irwin foau_report
    by_cases hp : (r._id = rid2 ∧ r.sent_to_irwin = false)
    · rw [if_pos hp, sent_flag_cons, latch_report_id]
      by_cases hr : r._id = rid
      · rw [if_pos hr]
        exact latch_report_sent now r
      · rw [if_neg hr]
        rw [if_neg hr] at h
        exact h
    · rw [if_neg hp, sent_flag_cons]
      by_cases hr : r._id = rid
      · rw [if_pos hr]
        rw [if_pos hr] at h
        exact h
      · rw [if_neg hr]
        rw [if_neg hr] at h
        unfold atomically_update_sent_to_irwin at ih
        exact ih h

theorem sent_flag_mono_step (reports : List Report) (e : AggEvent) (rid : Nat)
    (h : sent_flag reports rid = true) :
    sent_flag (agg_step reports e) rid = true := by
  unfold agg_step handle_job_completed
  cases hf : e.jobs.find? (fun j => j._id == e.job_id) with
  | none => exact h
  | some job =>
    dsimp only
    cases hr : job.report_id with
    | none => exact h
    | some rid2 =>
      dsimp only
      cases hrep : reports.find? (fun r => r._id == rid2) with
      | none => exact h
      | some report =>
        dsimp only
        unfold update_report_completeness
        by_cases hge : F64.ge (report_complete_percentage e.jobs report) (F64.num 1) = true
        · rw [if_pos hge]
          exact sent_flag_mono_atomically e.now report._id rid reports h
        · rw [if_neg hge]
          exact h

theorem count_flips_zero_of_true (rid : Nat) :
    ∀ (es : List AggEvent) (reports : List Report),
      sent_flag reports rid = true → count_flips rid reports es = 0 := by
  intro es
  induction es with
  | nil => intro reports h; rfl
  | cons e es ih =>
    intro reports h
    unfold count_flips
    rw [if_neg (by simp [h])]
    have h2 := ih (agg_step reports e) (sent_flag_mono_step reports e rid h)
    omega

/-- Claim C6: across any sequence of `JobCompleted` events the aggregator
processes — repeated completions of the same job included, and with the
jobs collection free to change arbitrarily between events — a report's
`sent_to_irwin` flag flips from false to true at most once; the flip is
guarded by the atomic `find_one_and_update` on
`{_id: rid, sent_to_irwin: false}` inside `update_report_completeness`. -/
theorem sent_to_irwin_flips_at_most_once (rid : Nat) (es : List AggEvent) :
    ∀ (reports : List Report), count_flips rid reports es ≤ 1 := by
  induction es with
  | nil => intro reports; exact Nat.zero_le 1
  | cons e es ih =>
    intro reports
    unfold count_flips
    by_cases hflip :
        (sent_flag reports rid = false ∧ sent_flag (agg_step reports e) rid = true)
    · rw [if_pos hflip]
      have h0 := count_flips_zero_of_true rid es (agg_step reports e) hflip.2
      omega
    · rw [if_neg hflip]
      have h1 := ih (agg_step reports e)
      omega

/-- Claim C10: a report with zero jobs divides 0.0 by 0.0; the NaN result
never passes the `>= 1f64` test, so `update_report_completeness` never
reaches the latch and the report is never dispatched. -/
theorem zero_jobs_report_never_latched (now : Int) (jobs : List Job)
    (report : Report) (reports : List Report)
    (h : ∀ j ∈ jobs, j.report_id ≠ some report._id) :
    report_complete_percentage jobs report = F64.nan ∧
    F64.ge (report_complete_percentage jobs report) (F64.num 1) = false ∧
    update_report_completeness now jobs report reports = reports := by
  have hfil : find_by_report jobs report._id = [] := by
    unfold find_by_report
    rw [List.filter_eq_nil_iff]
    intro j hj
    simp only [beq_iff_eq]
    exact h j hj
  have hp : report_complete_percentage jobs report = F64.nan := by
    unfold report_complete_percentage
    rw [hfil]
    show F64.div (F64.num 0) (F64.num (0 + 0)) = F64.nan
    have hz : (0 : Rat) + 0 = 0 := by norm_num
    rw [hz]
    simp [F64.div]
  refine ⟨hp, ?_, ?_⟩
  · rw [hp]
    rfl
  · unfold update_report_completeness
    rw [hp]
    simp [F64.ge]

/-- Witness for claim C10 at a concrete input: no job refers to
`reportW`. -/
theorem zero_jobs_report_never_latched_witness :
    report_complete_percentage [] reportW = F64.nan ∧
    F64.ge (report_complete_percentage [] reportW) (F64.num 1) = false ∧
    update_report_completeness 3 [] reportW [reportW] = [reportW] := by
  exact zero_jobs_report_never_latched 3 [] reportW [reportW] (by simp)

/-! ## Claims about ingest and the downstream payload -/

theorem mapExcept_error_of_mem {α β ε : Type} (f : α → Except ε β) :
    ∀ (l : List α) (a : α), a ∈ l → (∃ e, f a = Except.error e) →
      ∃ e, mapExcept f l = Except.error e := by
  intro l
  induction l with
  | nil => intro a ha; cases ha
  | cons x rest ih =>
    intro a ha hex
    obtain ⟨e, he⟩ := hex
    unfold mapExcept
    cases hfx : f x with
    | error e2 => exact ⟨e2, rfl⟩
    | ok b =>
      rcases List.mem_cons.mp ha with rfl | hmem
      · rw [hfx] at he; cases he
      · obtain ⟨e3, h3⟩ := ih a hmem ⟨e, he⟩
        refine ⟨e3, ?_⟩
        rw [h3]
        rfl

/-- Claim C8: if any game of the request has a SAN ply that is illegal
from the position reached by replaying its predecessors from the starting
position (`uci_from_san` fails), `add_to_queue` returns an error and the
state is exactly the input state — no game upserted, no report inserted,
no job inserted. -/
theorem add_to_queue_keeps_no_state_on_illegal_move
    {San Mv Pos Uci : Type} (L : ChessLib San Mv Pos Uci) (now : Int)
    (st : IngestState Uci) (req : Request San)
    (h : ∃ g ∈ req.games, ∃ e, uci_from_san L g.pgn = Except.error e) :
    ∃ e, add_to_queue L now st req = (st, some e) := by
  obtain ⟨g, hg, e, he⟩ := h
  have herr : ∃ e2, create_game_try_from L g = Except.error e2 := by
    refine ⟨e, ?_⟩
    unfold create_game_try_from
    rw [he]
    rfl
  obtain ⟨e3, h3⟩ := mapExcept_error_of_mem (create_game_try_from L) req.games g hg herr
  refine ⟨e3, ?_⟩
  unfold add_to_queue
  rw [h3]

/-- Witness for claim C8 at a concrete input: under `chessLibW` the single
ply of `requestGameW` is illegal, and `add_to_queue` keeps the state and
reports an error. -/
theorem add_to_queue_keeps_no_state_on_illegal_move_witness :
    (add_to_queue chessLibW 0 ingestStateW requestW).1 = ingestStateW ∧
    ((add_to_queue chessLibW 0 ingestStateW requestW).2).isSome = true := by
  obtain ⟨e, he⟩ := add_to_queue_keeps_no_state_on_illegal_move chessLibW 0
    ingestStateW requestW ⟨requestGameW, by simp [requestW], IngestError.SanError, rfl⟩
  constructor
  · rw [he]
  · rw [he]
    rfl

/-- Claim C9: the `Score → EngineEval` conversion reinterprets the signed
32-bit value as unsigned via `as u32` (the value modulo `2^32`): every
negative centipawn `Cp v` yields `cp = v + 2^32`, and every negative
`Mate v` yields `mate = v + 2^32`, instead of carrying the signed value
end-to-end. -/
theorem engine_eval_reinterprets_negative (v : Int)
    (h1 : -2147483648 ≤ v) (h2 : v < 0) :
    (engine_eval_of_score (Score.Cp v)).cp = some (v + 4294967296).toNat ∧
    (engine_eval_of_score (Score.Mate v)).mate = some (v + 4294967296).toNat := by
  have hmod : v % 4294967296 = v + 4294967296 := by omega
  constructor <;> simp [engine_eval_of_score, i32_as_u32, hmod]

/-- Witness for claim C9: `Cp(-1)` becomes `cp = 4294967295` and
`Mate(-3)` becomes `mate = 4294967293`. -/
theorem engine_eval_reinterprets_negative_witness :
    (engine_eval_of_score (Score.Cp (-1))).cp = some 4294967295 ∧
    (engine_eval_of_score (Score.Mate (-3))).mate = some 4294967293 := by
  have h1 := (engine_eval_reinterprets_negative (-1) (by decide) (by decide)).1
  have h2 := (engine_eval_reinterprets_negative (-3) (by decide) (by decide)).2
  rw [show ((-1 : Int) + 4294967296).toNat = 4294967295 from by decide] at h1
  rw [show ((-3 : Int) + 4294967296).toNat = 4294967293 from by decide] at h2
  exact ⟨h1, h2⟩

end LilaDeepq
